import Mathlib

/-!
# Verification of the peer wire message layer of `bittorrent-protocol`

Shallow embedding of `src/peer/message/mod.rs`: the top-level
`PeerWireProtocolMessage` enum, its `bytes_needed`, `parse_bytes`,
`write_bytes` and `message_size` operations, and the helper functions
`write_length_id_pair` and `u32_to_usize`.

Bytes are modelled as `Nat` (well-formedness predicates record the `u8`/`u32`
range constraints that the Rust types enforce).  A stream of bytes is a
`List Nat`.  Fallible operations return `Except String`, mirroring
`io::Result`; Rust panics (process aborts) are modelled by the `PResult.panic`
constructor, distinct from every returned value.

The sub-message codecs (`standard`, `bits_ext`, `prot_ext` modules) are not
part of the sources available under `src/`; they are modelled from the spec
(each such definition carries a doc comment starting `Modelled from the
spec:`).
-/

deriving instance DecidableEq for Except

namespace BtProto

/-- Result of a Rust computation that may panic: `ok` is a normal return,
`panic` models a process abort (`panic!`).  A panic is not a returned value. -/
inductive PResult (α : Type) where
  | ok (a : α) : PResult α
  | panic : PResult α
deriving DecidableEq

/-- Big-endian 32-bit value of four bytes (each expected `< 256`). -/
def beU32 (b0 b1 b2 b3 : Nat) : Nat :=
  ((b0 * 256 + b1) * 256 + b2) * 256 + b3

/-- Big-endian byte encoding of a 32-bit value (`byteorder::BigEndian`
`write_u32`); truncates to 32 bits like the Rust `u32` argument type. -/
def u32Bytes (n : Nat) : List Nat :=
  [n / 2 ^ 24 % 256, n / 2 ^ 16 % 256, n / 2 ^ 8 % 256, n % 256]

/-- Big-endian byte encoding of a 16-bit value. -/
def u16Bytes (n : Nat) : List Nat :=
  [n / 2 ^ 8 % 256, n % 256]

/-- The nom `be_u32` parser: a big-endian `u32` off the front of the input,
returning the value and the unconsumed tail, or `none` on fewer than 4 bytes. -/
def be_u32 (bytes : List Nat) : Option (Nat × List Nat) :=
  match bytes with
  | b0 :: b1 :: b2 :: b3 :: rest => some (beU32 b0 b1 b2 b3, rest)
  | _ => none

/-- Wrapping `u32` subtraction (release-mode semantics of `a - b` on `u32`),
used for the `message_len - 1` payload-length computations in `parse_message`. -/
def wsub32 (a b : Nat) : Nat :=
  (a + 2 ^ 32 - b % 2 ^ 32) % 2 ^ 32

theorem beU32_u32Bytes (n : Nat) (h : n < 2 ^ 32) :
    beU32 (n / 2 ^ 24 % 256) (n / 2 ^ 16 % 256) (n / 2 ^ 8 % 256) (n % 256) = n := by
  simp only [beU32]
  omega

theorem u32Bytes_lt (n : Nat) : ∀ b ∈ u32Bytes n, b < 256 := by
  simp only [u32Bytes, List.mem_cons, List.not_mem_nil, or_false]
  rintro b (rfl | rfl | rfl | rfl) <;> omega

/-! ## Decimal ASCII integers (for bencoded dictionary values)

The bencoded dictionaries inside metadata-extension payloads carry integers
written as decimal ASCII (`i<digits>e`).  `natDigits` renders a natural
number as its ASCII decimal digits, most significant first; `parseNat`
reads a maximal run of ASCII digits off the front of a byte stream. -/

/-- Fuel-driven worker for `natDigits`; `fuel > n` suffices. -/
def natDigitsAux : Nat → Nat → List Nat
  | 0, _ => []
  | fuel + 1, n => if n < 10 then [n + 48] else natDigitsAux fuel (n / 10) ++ [n % 10 + 48]

/-- ASCII decimal digits of `n`, most significant first (no sign, no leading
zeros; `0` renders as `"0"`). -/
def natDigits (n : Nat) : List Nat :=
  natDigitsAux (n + 1) n

/-- Accumulating loop of the decimal reader: consume ASCII digits, stopping at
the first non-digit byte or the end of input. -/
def parseDigitsLoop : Nat → List Nat → Nat × List Nat
  | acc, [] => (acc, [])
  | acc, b :: bs =>
    if 48 ≤ b ∧ b ≤ 57 then parseDigitsLoop (acc * 10 + (b - 48)) bs else (acc, b :: bs)

/-- Read a decimal natural number (at least one ASCII digit) off the front of
the input, returning the value and the unconsumed tail. -/
def parseNat (bytes : List Nat) : Option (Nat × List Nat) :=
  match bytes with
  | b :: bs => if 48 ≤ b ∧ b ≤ 57 then some (parseDigitsLoop (b - 48) bs) else none
  | [] => none

/-- The first byte of the stream, if any, is not an ASCII digit. -/
def nonDigitFirst : List Nat → Prop
  | [] => True
  | b :: _ => b < 48 ∨ 57 < b

theorem natDigitsAux_mem_digit : ∀ fuel n d, d ∈ natDigitsAux fuel n → 48 ≤ d ∧ d ≤ 57 := by
  intro fuel
  induction fuel with
  | zero => intro n d h; simp [natDigitsAux] at h
  | succ fuel ih =>
    intro n d h
    simp only [natDigitsAux] at h
    by_cases hn : n < 10
    · simp [hn] at h
      omega
    · simp [hn, List.mem_append] at h
      rcases h with h | h
      · exact ih _ _ h
      · omega

theorem natDigitsAux_ne_nil (fuel n : Nat) (h : n < fuel) : natDigitsAux fuel n ≠ [] := by
  cases fuel with
  | zero => omega
  | succ fuel =>
    simp only [natDigitsAux]
    by_cases hn : n < 10 <;> simp [hn]

theorem parseDigitsLoop_append (ds : List Nat) :
    ∀ acc rest, (∀ d ∈ ds, 48 ≤ d ∧ d ≤ 57) → nonDigitFirst rest →
    parseDigitsLoop acc (ds ++ rest) =
      (List.foldl (fun a d => a * 10 + (d - 48)) acc ds, rest) := by
  induction ds with
  | nil =>
    intro acc rest _ hrest
    cases rest with
    | nil => simp [parseDigitsLoop]
    | cons b bs =>
      simp only [nonDigitFirst] at hrest
      simp only [List.nil_append, parseDigitsLoop, List.foldl_nil]
      rw [if_neg (by omega)]
  | cons d ds ih =>
    intro acc rest hds hrest
    have hd : 48 ≤ d ∧ d ≤ 57 := hds d (by simp)
    simp only [List.cons_append, parseDigitsLoop, List.foldl_cons]
    rw [if_pos hd]
    exact ih _ rest (fun x hx => hds x (by simp [hx])) hrest

theorem natDigitsAux_foldl : ∀ fuel n acc, n < fuel →
    List.foldl (fun a d => a * 10 + (d - 48)) acc (natDigitsAux fuel n) =
      acc * 10 ^ (natDigitsAux fuel n).length + n := by
  intro fuel
  induction fuel with
  | zero => intro n acc h; omega
  | succ fuel ih =>
    intro n acc h
    simp only [natDigitsAux]
    by_cases hn : n < 10
    · simp [hn, List.foldl_cons]
    · rw [if_neg hn]
      have hdiv : n / 10 < fuel := by
        have h1 : n / 10 < n := Nat.div_lt_self (by omega) (by omega)
        omega
      rw [List.foldl_append]
      simp only [List.foldl_cons, List.foldl_nil, List.length_append, List.length_cons,
        List.length_nil]
      rw [ih _ acc hdiv]
      have hmod : 10 * (n / 10) + n % 10 = n := Nat.div_add_mod n 10
      have hsub : n % 10 + 48 - 48 = n % 10 := by omega
      rw [hsub, pow_succ]
      calc (acc * 10 ^ (natDigitsAux fuel (n / 10)).length + n / 10) * 10 + n % 10
      _ = acc * (10 ^ (natDigitsAux fuel (n / 10)).length * 10)
            + (10 * (n / 10) + n % 10) := by ring
      _ = acc * (10 ^ (natDigitsAux fuel (n / 10)).length * 10) + n := by rw [hmod]

/-- Round-trip for decimal integers: reading the rendered digits of `n`
followed by a stream that does not begin with a digit yields `n` and that
stream. -/
theorem parseNat_natDigits (n : Nat) (rest : List Nat) (hrest : nonDigitFirst rest) :
    parseNat (natDigits n ++ rest) = some (n, rest) := by
  have hne : natDigits n ≠ [] := natDigitsAux_ne_nil (n + 1) n (by omega)
  have hdig : ∀ d ∈ natDigits n, 48 ≤ d ∧ d ≤ 57 :=
    fun d hd => natDigitsAux_mem_digit (n + 1) n d hd
  have hloop : parseDigitsLoop 0 (natDigits n ++ rest) = (n, rest) := by
    rw [parseDigitsLoop_append _ _ _ hdig hrest]
    simp only [natDigits]
    rw [natDigitsAux_foldl (n + 1) n 0 (by omega)]
    simp
  cases hD : natDigits n with
  | nil => exact absurd hD hne
  | cons d ds =>
    have hd : 48 ≤ d ∧ d ≤ 57 := hdig d (by rw [hD]; simp)
    rw [hD] at hloop
    simp only [List.cons_append, parseDigitsLoop, if_pos hd] at hloop
    have h0 : 0 * 10 + (d - 48) = d - 48 := by omega
    rw [h0] at hloop
    simp only [List.cons_append, parseNat, if_pos hd]
    exact congrArg some hloop

/-- Drop an expected literal byte sequence off the front of the input,
returning the tail, or `none` if the input does not start with it. -/
def stripBytes : List Nat → List Nat → Option (List Nat)
  | [], bs => some bs
  | _ :: _, [] => none
  | p :: ps, b :: bs => if b = p then stripBytes ps bs else none

theorem stripBytes_append (pre : List Nat) : ∀ rest, stripBytes pre (pre ++ rest) = some rest := by
  induction pre with
  | nil => intro rest; simp [stripBytes]
  | cons p ps ih => intro rest; simp [stripBytes, ih]

/-- ASCII bytes of a string literal (used for the fixed parts of bencoded
dictionaries). -/
def strBytes (s : String) : List Nat :=
  s.data.map Char.toNat

/-! ## Data model

Message structures, following `PeerWireProtocolMessage` and the sub-message
types re-exported by `src/peer/message/mod.rs`.  The sub-message structures
live in the `standard`, `bits_ext` and `prot_ext` modules, which are not in
the available sources; their fields follow the spec (section 3). -/

/-- Modelled from the spec: `HaveMessage` — `{piece_index: u32}` (module
`standard`, missing from the sources). -/
structure HaveMessage where
  piece_index : Nat
deriving DecidableEq

/-- Modelled from the spec: `BitFieldMessage` — `{bitfield: ordered sequence
of bytes}` (module `standard`, missing from the sources). -/
structure BitFieldMessage where
  bitfield : List Nat
deriving DecidableEq

/-- Modelled from the spec: `RequestMessage` — `{index: u32, begin: u32,
length: u32}` (module `standard`, missing from the sources). -/
structure RequestMessage where
  index : Nat
  begin_ : Nat
  length : Nat
deriving DecidableEq

/-- Modelled from the spec: `PieceMessage` — `{index: u32, begin: u32,
block: owned byte sequence}` (module `standard`, missing from the sources). -/
structure PieceMessage where
  index : Nat
  begin_ : Nat
  block : List Nat
deriving DecidableEq

/-- Modelled from the spec: `CancelMessage` — `{index: u32, begin: u32,
length: u32}` (module `standard`, missing from the sources). -/
structure CancelMessage where
  index : Nat
  begin_ : Nat
  length : Nat
deriving DecidableEq

/-- Modelled from the spec: `PortMessage` — `{listen_port: u16}` (module
`bits_ext`, missing from the sources). -/
structure PortMessage where
  listen_port : Nat
deriving DecidableEq

/-- Modelled from the spec: `BitsExtensionMessage` — union of messages
unlocked by reserved handshake bits; currently one variant,
`Port{listen_port: u16}` (module `bits_ext`, missing from the sources). -/
inductive BitsExtensionMessage where
  | Port (msg : PortMessage) : BitsExtensionMessage
deriving DecidableEq

/-- Modelled from the spec: `ExtendedMessage` — the negotiated extension
context: a mapping between the small closed set of known extension names
(here: metadata-exchange) and the numeric id the remote peer expects, plus
auxiliary negotiated values (advertised metadata size) (module `bits_ext`,
missing from the sources). -/
structure ExtendedMessage where
  ut_metadata_id : Option Nat
  metadata_size : Option Nat
deriving DecidableEq

/-- Modelled from the spec: `UtMetadataMessage` — the metadata-exchange
extension messages: Request, Data (with its raw trailing block, whose byte
length the bencoded dictionary declares), and Reject (module `prot_ext`,
missing from the sources). -/
inductive UtMetadataMessage where
  | Request (piece : Nat) : UtMetadataMessage
  | Data (piece : Nat) (block : List Nat) : UtMetadataMessage
  | Reject (piece : Nat) : UtMetadataMessage
deriving DecidableEq

/-- Modelled from the spec: `PeerExtensionProtocolMessage` — union over
concrete extension-protocol messages: metadata-exchange messages and a
catch-all unrecognized-extension variant retaining the raw id and payload
(module `prot_ext`, missing from the sources). -/
inductive PeerExtensionProtocolMessage where
  | UtMetadata (msg : UtMetadataMessage) : PeerExtensionProtocolMessage
  | Unrecognized (id : Nat) (payload : List Nat) : PeerExtensionProtocolMessage
deriving DecidableEq

/-- Enumeration of messages for `PeerWireProtocol` (mod.rs lines 60-93). -/
inductive PeerWireProtocolMessage where
  | KeepAlive : PeerWireProtocolMessage
  | Choke : PeerWireProtocolMessage
  | UnChoke : PeerWireProtocolMessage
  | Interested : PeerWireProtocolMessage
  | UnInterested : PeerWireProtocolMessage
  | Have (msg : HaveMessage) : PeerWireProtocolMessage
  | BitField (msg : BitFieldMessage) : PeerWireProtocolMessage
  | Request (msg : RequestMessage) : PeerWireProtocolMessage
  | Piece (msg : PieceMessage) : PeerWireProtocolMessage
  | Cancel (msg : CancelMessage) : PeerWireProtocolMessage
  | BitsExtension (ext : BitsExtensionMessage) : PeerWireProtocolMessage
  | ProtExtension (ext : PeerExtensionProtocolMessage) : PeerWireProtocolMessage
deriving DecidableEq

/-! ## Constants of `mod.rs` (lines 25-49) -/

def KEEP_ALIVE_MESSAGE_LEN : Nat := 0
def CHOKE_MESSAGE_LEN : Nat := 1
def UNCHOKE_MESSAGE_LEN : Nat := 1
def INTERESTED_MESSAGE_LEN : Nat := 1
def UNINTERESTED_MESSAGE_LEN : Nat := 1
def HAVE_MESSAGE_LEN : Nat := 5
def BASE_BITFIELD_MESSAGE_LEN : Nat := 1
def REQUEST_MESSAGE_LEN : Nat := 13
def BASE_PIECE_MESSAGE_LEN : Nat := 9
def CANCEL_MESSAGE_LEN : Nat := 13

def CHOKE_MESSAGE_ID : Nat := 0
def UNCHOKE_MESSAGE_ID : Nat := 1
def INTERESTED_MESSAGE_ID : Nat := 2
def UNINTERESTED_MESSAGE_ID : Nat := 3
def HAVE_MESSAGE_ID : Nat := 4
def BITFIELD_MESSAGE_ID : Nat := 5
def REQUEST_MESSAGE_ID : Nat := 6
def PIECE_MESSAGE_ID : Nat := 7
def CANCEL_MESSAGE_ID : Nat := 8

def MESSAGE_LENGTH_LEN_BYTES : Nat := 4
def MESSAGE_ID_LEN_BYTES : Nat := 1
def HEADER_LEN : Nat := MESSAGE_LENGTH_LEN_BYTES + MESSAGE_ID_LEN_BYTES
def BASE_PROT_EXTENSION_MESSAGE_LEN : Nat := 2

/-- Modelled from the spec: the reserved-bit Port message's length field
(`fixed`: id byte plus a 16-bit port), module `bits_ext`. -/
def PORT_MESSAGE_LEN : Nat := 3

/-- Modelled from the spec: the Port message's id byte, an
implementation-defined id outside 0-8 (module `bits_ext`). -/
def PORT_MESSAGE_ID : Nat := 9

/-- Modelled from the spec: the extension-protocol envelope's id byte, an
implementation-defined id outside the built-in and reserved ranges (module
`prot_ext`). -/
def EXTENSION_PROTOCOL_MESSAGE_ID : Nat := 20

/-- Modelled from the spec: the numeric `msg_type` of each metadata-exchange
message inside its bencoded dictionary (module `prot_ext`). -/
def UtMetadataMessage.msgType : UtMetadataMessage → Nat
  | .Request _ => 0
  | .Data _ _ => 1
  | .Reject _ => 2

/-! ## Standard message codecs

Modelled from the spec: module `standard` is missing from the sources.  Each
concrete message encodes including its own length+id header and decodes from
payload bytes already stripped of that header (spec section 4.4), with the
wire layouts of the table in spec section 6. -/

/-- Modelled from the spec: `HaveMessage::write_bytes` — length 5, id 4,
`piece_index` as big-endian `u32`. -/
def HaveMessage.write_bytes (m : HaveMessage) : List Nat :=
  u32Bytes HAVE_MESSAGE_LEN ++ [HAVE_MESSAGE_ID] ++ u32Bytes m.piece_index

/-- Modelled from the spec: `HaveMessage::parse_bytes` — a big-endian `u32`
piece index from the payload; a truncated fixed-size payload is a hard
decode failure. -/
def HaveMessage.parse_bytes (bytes : List Nat) : Except String HaveMessage :=
  match be_u32 bytes with
  | some (piece_index, _) => .ok ⟨piece_index⟩
  | none => .error "Failed To Parse HaveMessage"

/-- Modelled from the spec: `BitFieldMessage::write_bytes` — length `1+N`,
id 5, then the `N` bitfield bytes. -/
def BitFieldMessage.write_bytes (m : BitFieldMessage) : List Nat :=
  u32Bytes (BASE_BITFIELD_MESSAGE_LEN + m.bitfield.length) ++ [BITFIELD_MESSAGE_ID] ++ m.bitfield

/-- Modelled from the spec: `BitFieldMessage::parse_bytes` — consume
`declared_length - 1` payload bytes (passed as `len`); fewer available is a
hard decode failure. -/
def BitFieldMessage.parse_bytes (bytes : List Nat) (len : Nat) : Except String BitFieldMessage :=
  if len ≤ bytes.length then .ok ⟨bytes.take len⟩ else .error "Failed To Parse BitFieldMessage"

/-- Modelled from the spec: `RequestMessage::write_bytes` — length 13, id 6,
`index`, `begin`, `length` as big-endian `u32`. -/
def RequestMessage.write_bytes (m : RequestMessage) : List Nat :=
  u32Bytes REQUEST_MESSAGE_LEN ++ [REQUEST_MESSAGE_ID] ++
    u32Bytes m.index ++ u32Bytes m.begin_ ++ u32Bytes m.length

/-- Modelled from the spec: `RequestMessage::parse_bytes` — three big-endian
`u32` fields from the payload; truncation is a hard decode failure. -/
def RequestMessage.parse_bytes (bytes : List Nat) : Except String RequestMessage :=
  match bytes with
  | a0 :: a1 :: a2 :: a3 :: b0 :: b1 :: b2 :: b3 :: c0 :: c1 :: c2 :: c3 :: _ =>
    .ok ⟨beU32 a0 a1 a2 a3, beU32 b0 b1 b2 b3, beU32 c0 c1 c2 c3⟩
  | _ => .error "Failed To Parse RequestMessage"

/-- Modelled from the spec: `PieceMessage::write_bytes` — length `9+N`, id 7,
`index`, `begin` as big-endian `u32`, then the `N` block bytes. -/
def PieceMessage.write_bytes (m : PieceMessage) : List Nat :=
  u32Bytes (BASE_PIECE_MESSAGE_LEN + m.block.length) ++ [PIECE_MESSAGE_ID] ++
    u32Bytes m.index ++ u32Bytes m.begin_ ++ m.block

/-- Modelled from the spec: `PieceMessage::parse_bytes` — `index` and `begin`
then a block of `len - 8` bytes, where `len` is `declared_length - 1`;
truncation is a hard decode failure. -/
def PieceMessage.parse_bytes (bytes : List Nat) (len : Nat) : Except String PieceMessage :=
  match bytes with
  | a0 :: a1 :: a2 :: a3 :: b0 :: b1 :: b2 :: b3 :: rest =>
    if 8 ≤ len ∧ len - 8 ≤ rest.length then
      .ok ⟨beU32 a0 a1 a2 a3, beU32 b0 b1 b2 b3, rest.take (len - 8)⟩
    else .error "Failed To Parse PieceMessage"
  | _ => .error "Failed To Parse PieceMessage"

/-- Modelled from the spec: `CancelMessage::write_bytes` — length 13, id 8,
`index`, `begin`, `length` as big-endian `u32`. -/
def CancelMessage.write_bytes (m : CancelMessage) : List Nat :=
  u32Bytes CANCEL_MESSAGE_LEN ++ [CANCEL_MESSAGE_ID] ++
    u32Bytes m.index ++ u32Bytes m.begin_ ++ u32Bytes m.length

/-- Modelled from the spec: `CancelMessage::parse_bytes` — three big-endian
`u32` fields from the payload; truncation is a hard decode failure. -/
def CancelMessage.parse_bytes (bytes : List Nat) : Except String CancelMessage :=
  match bytes with
  | a0 :: a1 :: a2 :: a3 :: b0 :: b1 :: b2 :: b3 :: c0 :: c1 :: c2 :: c3 :: _ =>
    .ok ⟨beU32 a0 a1 a2 a3, beU32 b0 b1 b2 b3, beU32 c0 c1 c2 c3⟩
  | _ => .error "Failed To Parse CancelMessage"

/-! ## Reserved-bit extension codec (module `bits_ext`, missing) -/

/-- Modelled from the spec: `PortMessage::write_bytes` — fixed length 3, an
id outside 0-8, `listen_port` as big-endian `u16`. -/
def PortMessage.write_bytes (m : PortMessage) : List Nat :=
  u32Bytes PORT_MESSAGE_LEN ++ [PORT_MESSAGE_ID] ++ u16Bytes m.listen_port

/-- Modelled from the spec: `PortMessage` is a fixed-size message: an id byte
plus a 16-bit port (excluding the 4-byte length prefix). -/
def PortMessage.message_size (_ : PortMessage) : Nat :=
  MESSAGE_ID_LEN_BYTES + 2

/-- Modelled from the spec: `BitsExtensionMessage::write_bytes` delegates to
its single variant. -/
def BitsExtensionMessage.write_bytes : BitsExtensionMessage → List Nat
  | .Port msg => msg.write_bytes

/-- Modelled from the spec: `BitsExtensionMessage::message_size` delegates to
its single variant. -/
def BitsExtensionMessage.message_size : BitsExtensionMessage → Nat
  | .Port msg => msg.message_size

/-- Modelled from the spec: tier-2 parser (reserved-bit extension grammar):
recognizes its own `(length, id)` header, `none` meaning the tier did not
match; once the header matches, a truncated payload is a hard decode failure
carried inside `some`. -/
def BitsExtensionMessage.parse_bytes (bytes : List Nat) :
    Option (Except String BitsExtensionMessage) :=
  match bytes with
  | b0 :: b1 :: b2 :: b3 :: id :: rest =>
    if beU32 b0 b1 b2 b3 = PORT_MESSAGE_LEN ∧ id = PORT_MESSAGE_ID then
      some (match rest with
        | hi :: lo :: _ => .ok (.Port ⟨hi * 256 + lo⟩)
        | _ => .error "Failed To Parse PortMessage")
    else none
  | _ => none

/-! ## Extension-protocol codec (module `prot_ext`, missing) -/

/-- Modelled from the spec: the bencoded dictionary header of a
metadata-exchange message followed, for the Data variant, by its raw trailing
block; the dictionary declares the byte length of that trailing block.
Dictionary keys appear in bencode's sorted order
(`msg_type`, `piece`, `total_size`). -/
def UtMetadataMessage.encodePayload : UtMetadataMessage → List Nat
  | .Request piece =>
    strBytes "d8:msg_typei" ++ natDigits 0 ++ strBytes "e5:piecei" ++ natDigits piece ++
      strBytes "ee"
  | .Data piece block =>
    strBytes "d8:msg_typei" ++ natDigits 1 ++ strBytes "e5:piecei" ++ natDigits piece ++
      strBytes "e10:total_sizei" ++ natDigits block.length ++ strBytes "ee" ++ block
  | .Reject piece =>
    strBytes "d8:msg_typei" ++ natDigits 2 ++ strBytes "e5:piecei" ++ natDigits piece ++
      strBytes "ee"

/-- Modelled from the spec: the metadata-exchange decoder — read the bencoded
dictionary (`msg_type`, `piece`, and for Data `total_size`), use the declared
`total_size` to delimit the raw trailing block precisely (every byte must be
accounted for), and fail hard on any malformation. -/
def UtMetadataMessage.parsePayload (payload : List Nat) : Except String UtMetadataMessage :=
  match stripBytes (strBytes "d8:msg_typei") payload with
  | none => .error "Failed To Parse UtMetadataMessage"
  | some r1 =>
    match parseNat r1 with
    | none => .error "Failed To Parse UtMetadataMessage"
    | some (t, r2) =>
      match stripBytes (strBytes "e5:piecei") r2 with
      | none => .error "Failed To Parse UtMetadataMessage"
      | some r3 =>
        match parseNat r3 with
        | none => .error "Failed To Parse UtMetadataMessage"
        | some (piece, r4) =>
          if t = 0 then
            match stripBytes (strBytes "ee") r4 with
            | some [] => .ok (.Request piece)
            | _ => .error "Failed To Parse UtMetadataMessage"
          else if t = 2 then
            match stripBytes (strBytes "ee") r4 with
            | some [] => .ok (.Reject piece)
            | _ => .error "Failed To Parse UtMetadataMessage"
          else if t = 1 then
            match stripBytes (strBytes "e10:total_sizei") r4 with
            | none => .error "Failed To Parse UtMetadataMessage"
            | some r5 =>
              match parseNat r5 with
              | none => .error "Failed To Parse UtMetadataMessage"
              | some (total_size, r6) =>
                match stripBytes (strBytes "ee") r6 with
                | some block =>
                  if block.length = total_size then .ok (.Data piece block)
                  else .error "Failed To Parse UtMetadataMessage"
                | none => .error "Failed To Parse UtMetadataMessage"
          else .error "Failed To Parse UtMetadataMessage"

/-- Modelled from the spec: the extension's own declared size — the byte
count of its payload (bencoded header plus raw trailing block, or the raw
payload of the catch-all variant). -/
def PeerExtensionProtocolMessage.message_size : PeerExtensionProtocolMessage → Nat
  | .UtMetadata msg => msg.encodePayload.length
  | .Unrecognized _ payload => payload.length

/-- Modelled from the spec: `PeerExtensionProtocolMessage::write_bytes` — the
generic extension envelope: 4-byte length `2+N`, the envelope id byte, the
extension id resolved through the negotiation context, then the payload.
Encoding a message whose extension name the context cannot resolve is an
error; the catch-all variant carries its raw id and needs no resolution. -/
def PeerExtensionProtocolMessage.write_bytes (m : PeerExtensionProtocolMessage)
    (extended : Option ExtendedMessage) : Except String (List Nat) :=
  match m with
  | .UtMetadata msg =>
    match extended with
    | some ctx =>
      match ctx.ut_metadata_id with
      | some id =>
        .ok (u32Bytes (BASE_PROT_EXTENSION_MESSAGE_LEN + msg.encodePayload.length) ++
          [EXTENSION_PROTOCOL_MESSAGE_ID, id] ++ msg.encodePayload)
      | none => .error "Cannot Resolve Extension Id"
    | none => .error "Cannot Resolve Extension Id"
  | .Unrecognized id payload =>
    .ok (u32Bytes (BASE_PROT_EXTENSION_MESSAGE_LEN + payload.length) ++
      [EXTENSION_PROTOCOL_MESSAGE_ID, id] ++ payload)

/-- Modelled from the spec: tier-3 parser (extension-protocol grammar) —
parse the full buffer as a generic extension envelope, resolve the extension
id against the supplied negotiation context, dispatch to the metadata-exchange
decoder when recognized, and produce the catch-all unrecognized-extension
variant (raw id and payload) when not. -/
def PeerExtensionProtocolMessage.parse_bytes (bytes : List Nat)
    (extended : Option ExtendedMessage) : Except String PeerExtensionProtocolMessage :=
  match bytes with
  | b0 :: b1 :: b2 :: b3 :: eid :: extId :: payload =>
    if beU32 b0 b1 b2 b3 = BASE_PROT_EXTENSION_MESSAGE_LEN + payload.length ∧
        eid = EXTENSION_PROTOCOL_MESSAGE_ID then
      match extended with
      | some ctx =>
        if ctx.ut_metadata_id = some extId then
          (UtMetadataMessage.parsePayload payload).map .UtMetadata
        else .ok (.Unrecognized extId payload)
      | none => .ok (.Unrecognized extId payload)
    else .error "Failed To Parse PeerExtensionProtocolMessage"
  | _ => .error "Failed To Parse PeerExtensionProtocolMessage"

/-! ## Top-level operations of `mod.rs` -/

/-- `u32_to_usize` (mod.rs lines 218-224), parameterized by the host's `usize`
width in bits: panics if the conversion `value as usize as u32` does not give
`value` back, otherwise returns `value as usize`. -/
def u32_to_usize (usizeBits value : Nat) : PResult Nat :=
  if value % 2 ^ usizeBits % 2 ^ 32 = value then .ok (value % 2 ^ usizeBits) else .panic

/-- `PeerWireProtocolMessage::bytes_needed` (mod.rs lines 111-117): read the
big-endian length prefix; 4 bytes plus the declared length are needed, or
`none` (inside `Ok`) when even the prefix is incomplete. -/
def bytes_needed (usizeBits : Nat) (bytes : List Nat) :
    PResult (Except String (Option Nat)) :=
  match be_u32 bytes with
  | some (length, _) =>
    match u32_to_usize usizeBits length with
    | .ok l => .ok (.ok (some (MESSAGE_LENGTH_LEN_BYTES + l)))
    | .panic => .panic
  | none => .ok (.ok none)

/-- `parse_message_length` (mod.rs lines 209-215): the declared length of the
message, panicking on fewer than 4 bytes or an unrepresentable value. -/
def parse_message_length (usizeBits : Nat) (bytes : List Nat) : PResult Nat :=
  match be_u32 bytes with
  | some (len, _) => u32_to_usize usizeBits len
  | none => .panic

/-- `write_length_id_pair` (mod.rs lines 193-204): a big-endian `u32` length
followed by the optional id byte. -/
def write_length_id_pair (length : Nat) (opt_id : Option Nat) : List Nat :=
  u32Bytes length ++ (match opt_id with | some id => [id] | none => [])

/-- The header read by `parse_message`'s `switch!` (mod.rs line 241):
`tuple!(be_u32, opt!(be_u8))` on a clone of the buffer — the 4-byte length
and, when a fifth byte exists, the id byte. -/
def parseHeader (bytes : List Nat) : Option (Nat × Option Nat) :=
  match bytes with
  | b0 :: b1 :: b2 :: b3 :: rest => some (beU32 b0 b1 b2 b3, rest.head?)
  | _ => none

/-- Tier 1 of `parse_message` (mod.rs lines 241-280): the `switch!` over the
`(length, id)` header against the built-in table; `none` when the header is
unreadable or matches no entry.  The arms are those of the source `switch!`,
grouped by id byte (each `(length, id)` pair occurs in exactly one arm, and
the two wildcard-length arms have ids 5 and 7, used by no other arm, so the
grouping preserves the source's first-match semantics).  Payload parsers
receive `bytes.split_off(HEADER_LEN)` — the bytes after the first 5 — and
the `message_len - 1` arguments use wrapping `u32` subtraction. -/
def parseBuiltin (bytes : List Nat) : Option (Except String PeerWireProtocolMessage) :=
  match parseHeader bytes with
  | none => none
  | some (len, oid) =>
    match oid with
    | none => if len = KEEP_ALIVE_MESSAGE_LEN then some (.ok .KeepAlive) else none
    | some id =>
      if id = CHOKE_MESSAGE_ID then
        if len = KEEP_ALIVE_MESSAGE_LEN then some (.ok .KeepAlive)
        else if len = CHOKE_MESSAGE_LEN then some (.ok .Choke)
        else none
      else if id = UNCHOKE_MESSAGE_ID then
        if len = UNCHOKE_MESSAGE_LEN then some (.ok .UnChoke) else none
      else if id = INTERESTED_MESSAGE_ID then
        if len = INTERESTED_MESSAGE_LEN then some (.ok .Interested) else none
      else if id = UNINTERESTED_MESSAGE_ID then
        if len = UNINTERESTED_MESSAGE_LEN then some (.ok .UnInterested) else none
      else if id = HAVE_MESSAGE_ID then
        if len = HAVE_MESSAGE_LEN then
          some ((HaveMessage.parse_bytes (bytes.drop HEADER_LEN)).map .Have)
        else none
      else if id = BITFIELD_MESSAGE_ID then
        some ((BitFieldMessage.parse_bytes (bytes.drop HEADER_LEN) (wsub32 len 1)).map .BitField)
      else if id = REQUEST_MESSAGE_ID then
        if len = REQUEST_MESSAGE_LEN then
          some ((RequestMessage.parse_bytes (bytes.drop HEADER_LEN)).map .Request)
        else none
      else if id = PIECE_MESSAGE_ID then
        some ((PieceMessage.parse_bytes (bytes.drop HEADER_LEN) (wsub32 len 1)).map .Piece)
      else if id = CANCEL_MESSAGE_ID then
        if len = CANCEL_MESSAGE_LEN then
          some ((CancelMessage.parse_bytes (bytes.drop HEADER_LEN)).map .Cancel)
        else none
      else none

/-- `parse_message` (mod.rs lines 230-289): the `alt!` chain — built-in tier,
then the reserved-bit extension tier, then the extension-protocol tier
(whose `value!` wrapper always matches). -/
def parse_message (bytes : List Nat) (extended : Option ExtendedMessage) :
    Option (Except String PeerWireProtocolMessage) :=
  match parseBuiltin bytes with
  | some result => some result
  | none =>
    match BitsExtensionMessage.parse_bytes bytes with
    | some result => some (result.map .BitsExtension)
    | none => some ((PeerExtensionProtocolMessage.parse_bytes bytes extended).map .ProtExtension)

/-- `PeerWireProtocolMessage::parse_bytes` (mod.rs lines 119-130): unwrap a
`Done` result of `parse_message`, otherwise a generic decode failure. -/
def PeerWireProtocolMessage.parse_bytes (bytes : List Nat)
    (extended : Option ExtendedMessage) : Except String PeerWireProtocolMessage :=
  match parse_message bytes extended with
  | some result => result
  | none => .error "Failed To Parse PeerWireProtocolMessage"

/-- `PeerWireProtocolMessage::write_bytes` (mod.rs lines 132-164): the bytes
written to the sink, or the error with which the write fails. -/
def PeerWireProtocolMessage.write_bytes (m : PeerWireProtocolMessage)
    (extended : Option ExtendedMessage) : Except String (List Nat) :=
  match m with
  | .KeepAlive => .ok (write_length_id_pair KEEP_ALIVE_MESSAGE_LEN none)
  | .Choke => .ok (write_length_id_pair CHOKE_MESSAGE_LEN (some CHOKE_MESSAGE_ID))
  | .UnChoke => .ok (write_length_id_pair UNCHOKE_MESSAGE_LEN (some UNCHOKE_MESSAGE_ID))
  | .Interested => .ok (write_length_id_pair INTERESTED_MESSAGE_LEN (some INTERESTED_MESSAGE_ID))
  | .UnInterested =>
    .ok (write_length_id_pair UNINTERESTED_MESSAGE_LEN (some UNINTERESTED_MESSAGE_ID))
  | .Have msg => .ok msg.write_bytes
  | .BitField msg => .ok msg.write_bytes
  | .Request msg => .ok msg.write_bytes
  | .Piece msg => .ok msg.write_bytes
  | .Cancel msg => .ok msg.write_bytes
  | .BitsExtension ext => .ok ext.write_bytes
  | .ProtExtension ext => ext.write_bytes extended

/-- `PeerWireProtocolMessage::message_size` (mod.rs lines 166-189). -/
def PeerWireProtocolMessage.message_size (m : PeerWireProtocolMessage) : Nat :=
  let message_specific_len :=
    match m with
    | .KeepAlive => KEEP_ALIVE_MESSAGE_LEN
    | .Choke => CHOKE_MESSAGE_LEN
    | .UnChoke => UNCHOKE_MESSAGE_LEN
    | .Interested => INTERESTED_MESSAGE_LEN
    | .UnInterested => UNINTERESTED_MESSAGE_LEN
    | .Have _ => HAVE_MESSAGE_LEN
    | .BitField msg => BASE_BITFIELD_MESSAGE_LEN + msg.bitfield.length
    | .Request _ => REQUEST_MESSAGE_LEN
    | .Piece msg => BASE_PIECE_MESSAGE_LEN + msg.block.length
    | .Cancel _ => CANCEL_MESSAGE_LEN
    | .BitsExtension ext => ext.message_size
    | .ProtExtension ext => BASE_PROT_EXTENSION_MESSAGE_LEN + ext.message_size
  MESSAGE_LENGTH_LEN_BYTES + message_specific_len

/-- `ManagedMessage::keep_alive` for `PeerWireProtocolMessage`
(mod.rs lines 97-99). -/
def PeerWireProtocolMessage.keep_alive : PeerWireProtocolMessage :=
  .KeepAlive

/-- `ManagedMessage::is_keep_alive` for `PeerWireProtocolMessage`
(mod.rs lines 101-106). -/
def PeerWireProtocolMessage.is_keep_alive : PeerWireProtocolMessage → Bool
  | .KeepAlive => true
  | _ => false

/-! ## Range constraints of the Rust types

`wf m` records the constraints the Rust types enforce by construction: every
numeric field fits its wire width (`u8`/`u16`/`u32`), byte sequences hold
bytes, and the `u32` length field each encoder writes is representable. -/

/-- The range constraints that a constructible Rust value of
`PeerWireProtocolMessage` satisfies by its types. -/
def PeerWireProtocolMessage.wf : PeerWireProtocolMessage → Prop
  | .KeepAlive | .Choke | .UnChoke | .Interested | .UnInterested => True
  | .Have msg => msg.piece_index < 2 ^ 32
  | .BitField msg =>
    (∀ b ∈ msg.bitfield, b < 256) ∧ 1 + msg.bitfield.length < 2 ^ 32
  | .Request msg => msg.index < 2 ^ 32 ∧ msg.begin_ < 2 ^ 32 ∧ msg.length < 2 ^ 32
  | .Piece msg =>
    msg.index < 2 ^ 32 ∧ msg.begin_ < 2 ^ 32 ∧ (∀ b ∈ msg.block, b < 256) ∧
      9 + msg.block.length < 2 ^ 32
  | .Cancel msg => msg.index < 2 ^ 32 ∧ msg.begin_ < 2 ^ 32 ∧ msg.length < 2 ^ 32
  | .BitsExtension (.Port msg) => msg.listen_port < 2 ^ 16
  | .ProtExtension (.UtMetadata msg) => 2 + msg.encodePayload.length < 2 ^ 32
  | .ProtExtension (.Unrecognized id payload) =>
    id < 256 ∧ (∀ b ∈ payload, b < 256) ∧ 2 + payload.length < 2 ^ 32

/-- A negotiation context is applicable to a message (spec section 8,
round-trip) when it lets the message be encoded and decoded as itself: for a
metadata-exchange message the context must resolve the metadata-exchange id
(spec: encoding without the required mapping is a fatal error); for the
catch-all unrecognized-extension variant the context must not map the
retained raw id to a known extension (spec: the catch-all is produced
exactly when the id is not recognized by the context); every context is
applicable to the remaining variants. -/
def applicable (extended : Option ExtendedMessage) : PeerWireProtocolMessage → Prop
  | .ProtExtension (.UtMetadata _) =>
    ∃ ctx id, extended = some ctx ∧ ctx.ut_metadata_id = some id
  | .ProtExtension (.Unrecognized id _) =>
    ∀ ctx, extended = some ctx → ctx.ut_metadata_id ≠ some id
  | _ => True

/-! ## Supporting lemmas -/

theorem be_u32_none_of_short (bytes : List Nat) (h : bytes.length < 4) : be_u32 bytes = none := by
  match bytes with
  | [] => rfl
  | [_] => rfl
  | [_, _] => rfl
  | [_, _, _] => rfl
  | _ :: _ :: _ :: _ :: _ => exact absurd h (by simp)

theorem beU32_lt (b0 b1 b2 b3 : Nat) (h0 : b0 < 256) (h1 : b1 < 256) (h2 : b2 < 256)
    (h3 : b3 < 256) : beU32 b0 b1 b2 b3 < 2 ^ 32 := by
  simp only [beU32]
  omega

theorem u32_to_usize_ok (usizeBits value : Nat) (hW : 32 ≤ usizeBits) (hv : value < 2 ^ 32) :
    u32_to_usize usizeBits value = .ok value := by
  have hpow : 2 ^ 32 ≤ 2 ^ usizeBits := Nat.pow_le_pow_right (by norm_num) hW
  have hmod : value % 2 ^ usizeBits = value := Nat.mod_eq_of_lt (by omega)
  have h2 : value % 2 ^ usizeBits % 2 ^ 32 = value := by rw [hmod]; exact Nat.mod_eq_of_lt hv
  simp [u32_to_usize, h2, hmod]
  omega

theorem stripBytes_self (pre : List Nat) : stripBytes pre pre = some [] := by
  have h := stripBytes_append pre []
  rwa [List.append_nil] at h

theorem ndf_pieceKey (X : List Nat) : nonDigitFirst (strBytes "e5:piecei" ++ X) :=
  Or.inr (by decide)

theorem ndf_sizeKey (X : List Nat) : nonDigitFirst (strBytes "e10:total_sizei" ++ X) :=
  Or.inr (by decide)

theorem ndf_dictEnd (X : List Nat) : nonDigitFirst (strBytes "ee" ++ X) :=
  Or.inr (by decide)

theorem ndf_dictEnd_nil : nonDigitFirst (strBytes "ee") :=
  Or.inr (by decide)

theorem parseNat_digits_pieceKey (n : Nat) (X : List Nat) :
    parseNat (natDigits n ++ (strBytes "e5:piecei" ++ X)) =
      some (n, strBytes "e5:piecei" ++ X) :=
  parseNat_natDigits n _ (ndf_pieceKey X)

theorem parseNat_digits_sizeKey (n : Nat) (X : List Nat) :
    parseNat (natDigits n ++ (strBytes "e10:total_sizei" ++ X)) =
      some (n, strBytes "e10:total_sizei" ++ X) :=
  parseNat_natDigits n _ (ndf_sizeKey X)

theorem parseNat_digits_dictEnd (n : Nat) (X : List Nat) :
    parseNat (natDigits n ++ (strBytes "ee" ++ X)) = some (n, strBytes "ee" ++ X) :=
  parseNat_natDigits n _ (ndf_dictEnd X)

theorem parseNat_digits_dictEnd_nil (n : Nat) :
    parseNat (natDigits n ++ strBytes "ee") = some (n, strBytes "ee") :=
  parseNat_natDigits n _ ndf_dictEnd_nil

/-- Round-trip of the metadata-exchange payload codec: decoding an encoded
payload yields the original message. -/
theorem parsePayload_encodePayload (msg : UtMetadataMessage) :
    UtMetadataMessage.parsePayload msg.encodePayload = .ok msg := by
  cases msg with
  | Request piece =>
    simp [UtMetadataMessage.encodePayload, UtMetadataMessage.parsePayload,
      List.append_assoc, stripBytes_append, parseNat_digits_pieceKey,
      parseNat_digits_dictEnd_nil, stripBytes_self]
  | Data piece block =>
    simp [UtMetadataMessage.encodePayload, UtMetadataMessage.parsePayload,
      List.append_assoc, stripBytes_append, parseNat_digits_pieceKey,
      parseNat_digits_sizeKey, parseNat_digits_dictEnd, stripBytes_self]
  | Reject piece =>
    simp [UtMetadataMessage.encodePayload, UtMetadataMessage.parsePayload,
      List.append_assoc, stripBytes_append, parseNat_digits_pieceKey,
      parseNat_digits_dictEnd_nil, stripBytes_self]

/-! ## Claims -/

/-- C10: `is_keep_alive` returns `true` exactly on the `KeepAlive` variant,
and the `keep_alive` constructor returns the `KeepAlive` variant, so
`is_keep_alive` applied to `keep_alive()` is always `true`. -/
theorem is_keep_alive_iff_keepAlive :
    (∀ m : PeerWireProtocolMessage, m.is_keep_alive = true ↔ m = .KeepAlive) ∧
      PeerWireProtocolMessage.keep_alive = .KeepAlive ∧
      PeerWireProtocolMessage.keep_alive.is_keep_alive = true := by
  refine ⟨fun m => ?_, rfl, rfl⟩
  cases m <;> simp [PeerWireProtocolMessage.is_keep_alive]

/-- Witness for C10 at the concrete messages `keep_alive()` and `Choke`. -/
theorem is_keep_alive_iff_keepAlive_witness :
    PeerWireProtocolMessage.keep_alive.is_keep_alive = true ∧
      PeerWireProtocolMessage.Choke.is_keep_alive = false := by
  exact ⟨(is_keep_alive_iff_keepAlive.1 PeerWireProtocolMessage.keep_alive).mpr rfl, rfl⟩

/-- C7: both the 4-byte buffer `[0,0,0,0]` (length 0, no id byte) and the
5-byte buffer `[0,0,0,0,0]` (length 0 with id 0) decode to `KeepAlive`, under
every negotiation context, while `write_bytes` on `KeepAlive` always produces
exactly the minimal 4-byte form `[0,0,0,0]`. -/
theorem keepAlive_decode_both_encode_minimal (extended : Option ExtendedMessage) :
    PeerWireProtocolMessage.parse_bytes [0, 0, 0, 0] extended = .ok .KeepAlive ∧
      PeerWireProtocolMessage.parse_bytes [0, 0, 0, 0, 0] extended = .ok .KeepAlive ∧
      PeerWireProtocolMessage.write_bytes .KeepAlive extended = .ok [0, 0, 0, 0] :=
  ⟨rfl, rfl, rfl⟩

/-- Witness for C7 at the absent negotiation context. -/
theorem keepAlive_decode_both_encode_minimal_witness :
    PeerWireProtocolMessage.parse_bytes [0, 0, 0, 0] none = .ok .KeepAlive ∧
      PeerWireProtocolMessage.parse_bytes [0, 0, 0, 0, 0] none = .ok .KeepAlive ∧
      PeerWireProtocolMessage.write_bytes .KeepAlive none = .ok [0, 0, 0, 0] :=
  keepAlive_decode_both_encode_minimal none

/-- C4: at the failing input — a host whose `usize` is 16 bits wide and the
buffer `[0,1,0,0]`, which declares the 32-bit length 65536, unrepresentable
in 16 bits — `bytes_needed` panics (an unrecoverable process abort through
`u32_to_usize`), instead of returning the recoverable error result the claim
requires; the source's own TODO (mod.rs line 4) records this as a defect. -/
theorem bytes_needed_panics_on_unrepresentable_length :
    bytes_needed 16 [0, 1, 0, 0] = .panic := by decide

/-- C3: on hosts whose `usize` is at least 32 bits wide, `bytes_needed` on a
byte buffer returns `None` when fewer than 4 bytes are present, and
`Some(4 + big-endian u32 of the first 4 bytes)` once the length prefix is
present — a result that depends only on the first four bytes, never on how
many further bytes the buffer contains. -/
theorem bytes_needed_contract (usizeBits : Nat) (bytes : List Nat) (hW : 32 ≤ usizeBits)
    (hbytes : ∀ b ∈ bytes, b < 256) :
    (bytes.length < 4 → bytes_needed usizeBits bytes = .ok (.ok none)) ∧
      (∀ b0 b1 b2 b3 rest, bytes = b0 :: b1 :: b2 :: b3 :: rest →
        bytes_needed usizeBits bytes = .ok (.ok (some (4 + beU32 b0 b1 b2 b3)))) := by
  constructor
  · intro hlen
    simp [bytes_needed, be_u32_none_of_short bytes hlen]
  · rintro b0 b1 b2 b3 rest rfl
    have hlt : beU32 b0 b1 b2 b3 < 2 ^ 32 := by
      refine beU32_lt b0 b1 b2 b3 ?_ ?_ ?_ ?_ <;> exact hbytes _ (by simp)
    simp [bytes_needed, be_u32, u32_to_usize_ok usizeBits _ hW hlt,
      MESSAGE_LENGTH_LEN_BYTES]

/-- Witness for C3: a 64-bit host, a 2-byte buffer (no length prefix yet) and
a 5-byte buffer declaring payload length 5 with only one payload byte
present. -/
theorem bytes_needed_contract_witness :
    bytes_needed 64 [0, 0] = .ok (.ok none) ∧
      bytes_needed 64 [0, 0, 0, 5, 4] = .ok (.ok (some 9)) := by
  constructor
  · exact (bytes_needed_contract 64 [0, 0] (by decide) (by decide)).1 (by decide)
  · exact (bytes_needed_contract 64 [0, 0, 0, 5, 4] (by decide) (by decide)).2
      0 0 0 5 [4] rfl

/-- C9: `bytes_needed` never takes the `Err` branch of its `io::Result`: on
any byte buffer (on a host whose `usize` is at least 32 bits wide) it returns
`Ok(None)` or `Ok(Some n)` with `n ≥ 4`. -/
theorem bytes_needed_never_err (usizeBits : Nat) (bytes : List Nat) (hW : 32 ≤ usizeBits)
    (hbytes : ∀ b ∈ bytes, b < 256) :
    bytes_needed usizeBits bytes = .ok (.ok none) ∨
      ∃ n, 4 ≤ n ∧ bytes_needed usizeBits bytes = .ok (.ok (some n)) := by
  match bytes, hbytes with
  | [], _ => exact Or.inl rfl
  | [_], _ => exact Or.inl rfl
  | [_, _], _ => exact Or.inl rfl
  | [_, _, _], _ => exact Or.inl rfl
  | b0 :: b1 :: b2 :: b3 :: rest, hbytes =>
    right
    refine ⟨4 + beU32 b0 b1 b2 b3, by omega, ?_⟩
    exact (bytes_needed_contract usizeBits _ hW hbytes).2 b0 b1 b2 b3 rest rfl

/-- Witness for C9 at a 64-bit host and the buffer `[0,0,0,2]`. -/
theorem bytes_needed_never_err_witness :
    bytes_needed 64 [0, 0, 0, 2] = .ok (.ok none) ∨
      ∃ n, 4 ≤ n ∧ bytes_needed 64 [0, 0, 0, 2] = .ok (.ok (some n)) :=
  bytes_needed_never_err 64 [0, 0, 0, 2] (by decide) (by decide)

/-- C1: whenever `write_bytes` succeeds, the number of bytes it writes to the
sink equals `message_size` of the message, for every message and every
negotiation context. -/
theorem write_bytes_length_eq_message_size (m : PeerWireProtocolMessage)
    (extended : Option ExtendedMessage) (bs : List Nat)
    (h : m.write_bytes extended = .ok bs) : bs.length = m.message_size := by
  cases m with
  | KeepAlive =>
    simp only [PeerWireProtocolMessage.write_bytes, Except.ok.injEq] at h
    subst h; decide
  | Choke =>
    simp only [PeerWireProtocolMessage.write_bytes, Except.ok.injEq] at h
    subst h; decide
  | UnChoke =>
    simp only [PeerWireProtocolMessage.write_bytes, Except.ok.injEq] at h
    subst h; decide
  | Interested =>
    simp only [PeerWireProtocolMessage.write_bytes, Except.ok.injEq] at h
    subst h; decide
  | UnInterested =>
    simp only [PeerWireProtocolMessage.write_bytes, Except.ok.injEq] at h
    subst h; decide
  | Have msg =>
    simp only [PeerWireProtocolMessage.write_bytes, Except.ok.injEq] at h
    subst h
    simp [HaveMessage.write_bytes, u32Bytes, PeerWireProtocolMessage.message_size,
      HAVE_MESSAGE_LEN, HAVE_MESSAGE_ID, MESSAGE_LENGTH_LEN_BYTES]
  | BitField msg =>
    simp only [PeerWireProtocolMessage.write_bytes, Except.ok.injEq] at h
    subst h
    simp [BitFieldMessage.write_bytes, u32Bytes, PeerWireProtocolMessage.message_size,
      BASE_BITFIELD_MESSAGE_LEN, BITFIELD_MESSAGE_ID, MESSAGE_LENGTH_LEN_BYTES]
    omega
  | Request msg =>
    simp only [PeerWireProtocolMessage.write_bytes, Except.ok.injEq] at h
    subst h
    simp [RequestMessage.write_bytes, u32Bytes, PeerWireProtocolMessage.message_size,
      REQUEST_MESSAGE_LEN, REQUEST_MESSAGE_ID, MESSAGE_LENGTH_LEN_BYTES]
  | Piece msg =>
    simp only [PeerWireProtocolMessage.write_bytes, Except.ok.injEq] at h
    subst h
    simp [PieceMessage.write_bytes, u32Bytes, PeerWireProtocolMessage.message_size,
      BASE_PIECE_MESSAGE_LEN, PIECE_MESSAGE_ID, MESSAGE_LENGTH_LEN_BYTES]
    omega
  | Cancel msg =>
    simp only [PeerWireProtocolMessage.write_bytes, Except.ok.injEq] at h
    subst h
    simp [CancelMessage.write_bytes, u32Bytes, PeerWireProtocolMessage.message_size,
      CANCEL_MESSAGE_LEN, CANCEL_MESSAGE_ID, MESSAGE_LENGTH_LEN_BYTES]
  | BitsExtension ext =>
    cases ext with
    | Port msg =>
      simp only [PeerWireProtocolMessage.write_bytes, BitsExtensionMessage.write_bytes,
        Except.ok.injEq] at h
      subst h
      simp [PortMessage.write_bytes, u32Bytes, u16Bytes, PeerWireProtocolMessage.message_size,
        BitsExtensionMessage.message_size, PortMessage.message_size, PORT_MESSAGE_LEN,
        PORT_MESSAGE_ID, MESSAGE_ID_LEN_BYTES, MESSAGE_LENGTH_LEN_BYTES]
  | ProtExtension ext =>
    cases ext with
    | UtMetadata msg =>
      cases extended with
      | none =>
        simp [PeerWireProtocolMessage.write_bytes,
          PeerExtensionProtocolMessage.write_bytes] at h
      | some ctx =>
        cases hid : ctx.ut_metadata_id with
        | none =>
          simp [PeerWireProtocolMessage.write_bytes,
            PeerExtensionProtocolMessage.write_bytes, hid] at h
        | some id =>
          simp only [PeerWireProtocolMessage.write_bytes,
            PeerExtensionProtocolMessage.write_bytes, hid, Except.ok.injEq] at h
          subst h
          simp [u32Bytes, PeerWireProtocolMessage.message_size,
            PeerExtensionProtocolMessage.message_size, BASE_PROT_EXTENSION_MESSAGE_LEN,
            MESSAGE_LENGTH_LEN_BYTES]
          omega
    | Unrecognized id payload =>
      simp only [PeerWireProtocolMessage.write_bytes,
        PeerExtensionProtocolMessage.write_bytes, Except.ok.injEq] at h
      subst h
      simp [u32Bytes, PeerWireProtocolMessage.message_size,
        PeerExtensionProtocolMessage.message_size, BASE_PROT_EXTENSION_MESSAGE_LEN,
        MESSAGE_LENGTH_LEN_BYTES]
      omega

/-- Witness for C1 at the concrete message `BitField [128, 1]` written under
the empty negotiation context. -/
theorem write_bytes_length_eq_message_size_witness :
    ([0, 0, 0, 3, 5, 128, 1] : List Nat).length =
      (PeerWireProtocolMessage.BitField ⟨[128, 1]⟩).message_size :=
  write_bytes_length_eq_message_size (.BitField ⟨[128, 1]⟩) none
    [0, 0, 0, 3, 5, 128, 1] (by decide)

/-- The `(length, id)` pairs of the built-in table (the `switch!` arms of
`parse_message`, spec section 6): the fixed-length entries with their exact
lengths, and the wildcard-length entries for ids 5 (BitField) and 7 (Piece). -/
def builtinPair (len : Nat) (oid : Option Nat) : Prop :=
  match oid with
  | none => len = KEEP_ALIVE_MESSAGE_LEN
  | some id =>
    (len = KEEP_ALIVE_MESSAGE_LEN ∧ id = 0) ∨
      (len = CHOKE_MESSAGE_LEN ∧ id = CHOKE_MESSAGE_ID) ∨
      (len = UNCHOKE_MESSAGE_LEN ∧ id = UNCHOKE_MESSAGE_ID) ∨
      (len = INTERESTED_MESSAGE_LEN ∧ id = INTERESTED_MESSAGE_ID) ∨
      (len = UNINTERESTED_MESSAGE_LEN ∧ id = UNINTERESTED_MESSAGE_ID) ∨
      (len = HAVE_MESSAGE_LEN ∧ id = HAVE_MESSAGE_ID) ∨
      id = BITFIELD_MESSAGE_ID ∨
      (len = REQUEST_MESSAGE_LEN ∧ id = REQUEST_MESSAGE_ID) ∨
      id = PIECE_MESSAGE_ID ∨
      (len = CANCEL_MESSAGE_LEN ∧ id = CANCEL_MESSAGE_ID)

/-- C5: whenever the `(length, id)` header pair of a complete buffer matches
a built-in table entry exactly, `parse_bytes` resolves the buffer to the
built-in tier's interpretation — the result is the built-in `switch!`'s, and
the reserved-bit and extension-protocol tiers (and the negotiation context)
are never consulted. -/
theorem builtin_tier_has_priority (bytes : List Nat) (extended : Option ExtendedMessage)
    (len : Nat) (oid : Option Nat) (hh : parseHeader bytes = some (len, oid))
    (hb : builtinPair len oid) :
    ∃ r, parseBuiltin bytes = some r ∧
      PeerWireProtocolMessage.parse_bytes bytes extended = r := by
  have hsome : ∃ r, parseBuiltin bytes = some r := by
    simp only [parseBuiltin, hh]
    cases oid with
    | none =>
      have hlen : len = 0 := by
        simpa [builtinPair, KEEP_ALIVE_MESSAGE_LEN] using hb
      subst hlen
      simp [KEEP_ALIVE_MESSAGE_LEN]
    | some id =>
      simp only [builtinPair, KEEP_ALIVE_MESSAGE_LEN, CHOKE_MESSAGE_LEN, UNCHOKE_MESSAGE_LEN,
        INTERESTED_MESSAGE_LEN, UNINTERESTED_MESSAGE_LEN, HAVE_MESSAGE_LEN, REQUEST_MESSAGE_LEN,
        CANCEL_MESSAGE_LEN, CHOKE_MESSAGE_ID, UNCHOKE_MESSAGE_ID, INTERESTED_MESSAGE_ID,
        UNINTERESTED_MESSAGE_ID, HAVE_MESSAGE_ID, BITFIELD_MESSAGE_ID, REQUEST_MESSAGE_ID,
        PIECE_MESSAGE_ID, CANCEL_MESSAGE_ID] at hb
      rcases hb with ⟨rfl, rfl⟩ | ⟨rfl, rfl⟩ | ⟨rfl, rfl⟩ | ⟨rfl, rfl⟩ | ⟨rfl, rfl⟩ |
        ⟨rfl, rfl⟩ | rfl | ⟨rfl, rfl⟩ | rfl | ⟨rfl, rfl⟩ <;>
        simp [KEEP_ALIVE_MESSAGE_LEN, CHOKE_MESSAGE_LEN, UNCHOKE_MESSAGE_LEN,
          INTERESTED_MESSAGE_LEN, UNINTERESTED_MESSAGE_LEN, HAVE_MESSAGE_LEN,
          REQUEST_MESSAGE_LEN, CANCEL_MESSAGE_LEN, CHOKE_MESSAGE_ID, UNCHOKE_MESSAGE_ID,
          INTERESTED_MESSAGE_ID, UNINTERESTED_MESSAGE_ID, HAVE_MESSAGE_ID,
          BITFIELD_MESSAGE_ID, REQUEST_MESSAGE_ID, PIECE_MESSAGE_ID, CANCEL_MESSAGE_ID]
  obtain ⟨r, hr⟩ := hsome
  refine ⟨r, hr, ?_⟩
  simp [PeerWireProtocolMessage.parse_bytes, parse_message, hr]

/-- Witness for C5 at the concrete 5-byte Choke buffer. -/
theorem builtin_tier_has_priority_witness :
    ∃ r, parseBuiltin [0, 0, 0, 1, 0] = some r ∧
      PeerWireProtocolMessage.parse_bytes [0, 0, 0, 1, 0]
        (some ⟨some 1, none⟩) = r :=
  builtin_tier_has_priority [0, 0, 0, 1, 0] (some ⟨some 1, none⟩) 1 (some 0) rfl
    (by simp [builtinPair, CHOKE_MESSAGE_LEN, CHOKE_MESSAGE_ID])

/-- C6: once a tier has matched its own header, an internal malformation of
that tier is a hard decode failure of the whole `parse_bytes` call — the
built-in tier's inner failure is returned as the result without consulting
later tiers, and likewise the reserved-bit tier's inner failure when the
built-in tier did not match. -/
theorem no_silent_fallback :
    (∀ bytes extended e, parseBuiltin bytes = some (.error e) →
      PeerWireProtocolMessage.parse_bytes bytes extended = .error e) ∧
      (∀ bytes extended e, parseBuiltin bytes = none →
        BitsExtensionMessage.parse_bytes bytes = some (.error e) →
        PeerWireProtocolMessage.parse_bytes bytes extended = .error e) := by
  constructor
  · intro bytes extended e h
    simp [PeerWireProtocolMessage.parse_bytes, parse_message, h]
  · intro bytes extended e h1 h2
    simp [PeerWireProtocolMessage.parse_bytes, parse_message, h1, h2, Except.map]

/-- Witness for C6: a Have message whose fixed-size payload is truncated, and
a Port message whose fixed-size payload is truncated. -/
theorem no_silent_fallback_witness :
    PeerWireProtocolMessage.parse_bytes [0, 0, 0, 5, 4, 1] none =
      .error "Failed To Parse HaveMessage" ∧
      PeerWireProtocolMessage.parse_bytes [0, 0, 0, 3, 9, 1] none =
        .error "Failed To Parse PortMessage" :=
  ⟨no_silent_fallback.1 [0, 0, 0, 5, 4, 1] none _ (by decide),
    no_silent_fallback.2 [0, 0, 0, 3, 9, 1] none _ (by decide) (by decide)⟩

/-- An extension-protocol envelope whose extension id the context does not
map decodes to the catch-all variant (shared between the unknown-extension
tolerance and round-trip arguments). -/
theorem parse_unrecognized_envelope (extended : Option ExtendedMessage)
    (extId : Nat) (payload : List Nat)
    (hlen : BASE_PROT_EXTENSION_MESSAGE_LEN + payload.length < 2 ^ 32)
    (hunk : ∀ ctx, extended = some ctx → ctx.ut_metadata_id ≠ some extId) :
    PeerWireProtocolMessage.parse_bytes
      (u32Bytes (BASE_PROT_EXTENSION_MESSAGE_LEN + payload.length) ++
        [EXTENSION_PROTOCOL_MESSAGE_ID, extId] ++ payload) extended =
      .ok (.ProtExtension (.Unrecognized extId payload)) := by
  have hbe := beU32_u32Bytes (BASE_PROT_EXTENSION_MESSAGE_LEN + payload.length) hlen
  simp only [BASE_PROT_EXTENSION_MESSAGE_LEN] at hbe hlen ⊢
  norm_num at hbe
  cases extended with
  | none =>
    simp [PeerWireProtocolMessage.parse_bytes, parse_message, parseBuiltin, parseHeader,
      BitsExtensionMessage.parse_bytes, PeerExtensionProtocolMessage.parse_bytes, u32Bytes,
      hbe, EXTENSION_PROTOCOL_MESSAGE_ID, PORT_MESSAGE_ID, PORT_MESSAGE_LEN,
      KEEP_ALIVE_MESSAGE_LEN, CHOKE_MESSAGE_ID, UNCHOKE_MESSAGE_ID, INTERESTED_MESSAGE_ID,
      UNINTERESTED_MESSAGE_ID, HAVE_MESSAGE_ID, BITFIELD_MESSAGE_ID, REQUEST_MESSAGE_ID,
      PIECE_MESSAGE_ID, CANCEL_MESSAGE_ID, BASE_PROT_EXTENSION_MESSAGE_LEN, Except.map]
  | some ctx =>
    have hne := hunk ctx rfl
    simp [PeerWireProtocolMessage.parse_bytes, parse_message, parseBuiltin, parseHeader,
      BitsExtensionMessage.parse_bytes, PeerExtensionProtocolMessage.parse_bytes, u32Bytes,
      hbe, hne, EXTENSION_PROTOCOL_MESSAGE_ID, PORT_MESSAGE_ID, PORT_MESSAGE_LEN,
      KEEP_ALIVE_MESSAGE_LEN, CHOKE_MESSAGE_ID, UNCHOKE_MESSAGE_ID, INTERESTED_MESSAGE_ID,
      UNINTERESTED_MESSAGE_ID, HAVE_MESSAGE_ID, BITFIELD_MESSAGE_ID, REQUEST_MESSAGE_ID,
      PIECE_MESSAGE_ID, CANCEL_MESSAGE_ID, BASE_PROT_EXTENSION_MESSAGE_LEN, Except.map]

/-- C8: a complete extension-protocol envelope (correct length field,
envelope id byte) whose extension id byte the supplied negotiation context
does not recognize decodes successfully to the catch-all
unrecognized-extension variant, retaining the raw id and payload, under any
such context (including the absent one). -/
theorem unknown_extension_decodes_to_catchall (extended : Option ExtendedMessage)
    (extId : Nat) (payload bytes : List Nat)
    (hbytes : bytes = u32Bytes (BASE_PROT_EXTENSION_MESSAGE_LEN + payload.length) ++
      [EXTENSION_PROTOCOL_MESSAGE_ID, extId] ++ payload)
    (hlen : BASE_PROT_EXTENSION_MESSAGE_LEN + payload.length < 2 ^ 32)
    (hunk : ∀ ctx, extended = some ctx → ctx.ut_metadata_id ≠ some extId) :
    PeerWireProtocolMessage.parse_bytes bytes extended =
      .ok (.ProtExtension (.Unrecognized extId payload)) := by
  subst hbytes
  exact parse_unrecognized_envelope extended extId payload hlen hunk

/-- Witness for C8 at the envelope `[0,0,0,4,20,7,1,2]` (id 7, payload
`[1,2]`) under a context that maps metadata-exchange to id 3. -/
theorem unknown_extension_decodes_to_catchall_witness :
    PeerWireProtocolMessage.parse_bytes [0, 0, 0, 4, 20, 7, 1, 2] (some ⟨some 3, none⟩) =
      .ok (.ProtExtension (.Unrecognized 7 [1, 2])) :=
  unknown_extension_decodes_to_catchall (some ⟨some 3, none⟩) 7 [1, 2] _ (by decide)
    (by decide) (by intro ctx hctx; cases hctx; decide)

theorem parseHeader_u32Bytes (n : Nat) (h : n < 2 ^ 32) (rest : List Nat) :
    parseHeader (u32Bytes n ++ rest) = some (n, rest.head?) := by
  have hbe := beU32_u32Bytes n h
  simp only [u32Bytes, List.cons_append, List.nil_append, parseHeader]
  simp only [hbe]

theorem drop_header_u32Bytes (n : Nat) (rest : List Nat) :
    (u32Bytes n ++ rest).drop HEADER_LEN = rest.drop 1 := by
  simp [u32Bytes, HEADER_LEN, MESSAGE_LENGTH_LEN_BYTES, MESSAGE_ID_LEN_BYTES]

theorem have_parse_u32Bytes (n : Nat) (h : n < 2 ^ 32) :
    HaveMessage.parse_bytes (u32Bytes n) = .ok ⟨n⟩ := by
  have hbe := beU32_u32Bytes n h
  simp only [u32Bytes, HaveMessage.parse_bytes, be_u32]
  simp only [hbe]

theorem request_parse_u32Bytes (i b l : Nat) (hi : i < 2 ^ 32) (hb : b < 2 ^ 32)
    (hl : l < 2 ^ 32) :
    RequestMessage.parse_bytes (u32Bytes i ++ (u32Bytes b ++ u32Bytes l)) = .ok ⟨i, b, l⟩ := by
  have h1 := beU32_u32Bytes i hi
  have h2 := beU32_u32Bytes b hb
  have h3 := beU32_u32Bytes l hl
  simp only [u32Bytes, List.cons_append, List.nil_append, RequestMessage.parse_bytes]
  simp only [h1, h2, h3]

theorem cancel_parse_u32Bytes (i b l : Nat) (hi : i < 2 ^ 32) (hb : b < 2 ^ 32)
    (hl : l < 2 ^ 32) :
    CancelMessage.parse_bytes (u32Bytes i ++ (u32Bytes b ++ u32Bytes l)) = .ok ⟨i, b, l⟩ := by
  have h1 := beU32_u32Bytes i hi
  have h2 := beU32_u32Bytes b hb
  have h3 := beU32_u32Bytes l hl
  simp only [u32Bytes, List.cons_append, List.nil_append, CancelMessage.parse_bytes]
  simp only [h1, h2, h3]

theorem piece_parse_u32Bytes (i b : Nat) (blk : List Nat) (hi : i < 2 ^ 32)
    (hb : b < 2 ^ 32) :
    PieceMessage.parse_bytes (u32Bytes i ++ (u32Bytes b ++ blk)) (8 + blk.length) =
      .ok ⟨i, b, blk⟩ := by
  have h1 := beU32_u32Bytes i hi
  have h2 := beU32_u32Bytes b hb
  simp only [u32Bytes, List.cons_append, List.nil_append, PieceMessage.parse_bytes]
  simp only [h1, h2]
  rw [if_pos (by omega)]
  simp

theorem bitfield_parse_exact (bf : List Nat) :
    BitFieldMessage.parse_bytes bf bf.length = .ok ⟨bf⟩ := by
  simp [BitFieldMessage.parse_bytes]

theorem wsub32_one_add (n : Nat) (h : 1 + n < 2 ^ 32) : wsub32 (1 + n) 1 = n := by
  unfold wsub32
  omega

theorem wsub32_nine_add (n : Nat) (h : 9 + n < 2 ^ 32) : wsub32 (9 + n) 1 = 8 + n := by
  unfold wsub32
  omega



theorem parse_bytes_builtin (bytes : List Nat) (extended : Option ExtendedMessage)
    (r : Except String PeerWireProtocolMessage) (h : parseBuiltin bytes = some r) :
    PeerWireProtocolMessage.parse_bytes bytes extended = r := by
  simp [PeerWireProtocolMessage.parse_bytes, parse_message, h]

theorem parse_bytes_bits (bytes : List Nat) (extended : Option ExtendedMessage)
    (r : Except String BitsExtensionMessage) (h1 : parseBuiltin bytes = none)
    (h2 : BitsExtensionMessage.parse_bytes bytes = some r) :
    PeerWireProtocolMessage.parse_bytes bytes extended = r.map .BitsExtension := by
  simp [PeerWireProtocolMessage.parse_bytes, parse_message, h1, h2]

theorem parse_bytes_prot (bytes : List Nat) (extended : Option ExtendedMessage)
    (h1 : parseBuiltin bytes = none) (h2 : BitsExtensionMessage.parse_bytes bytes = none) :
    PeerWireProtocolMessage.parse_bytes bytes extended =
      (PeerExtensionProtocolMessage.parse_bytes bytes extended).map .ProtExtension := by
  simp [PeerWireProtocolMessage.parse_bytes, parse_message, h1, h2]

theorem parseBuiltin_header_have (bytes : List Nat)
    (hh : parseHeader bytes = some (5, some 4)) :
    parseBuiltin bytes = some ((HaveMessage.parse_bytes (bytes.drop HEADER_LEN)).map .Have) := by
  simp only [parseBuiltin, hh, CHOKE_MESSAGE_ID, UNCHOKE_MESSAGE_ID, INTERESTED_MESSAGE_ID,
    UNINTERESTED_MESSAGE_ID, HAVE_MESSAGE_ID, HAVE_MESSAGE_LEN]
  rw [if_neg (show ¬(4 = 0) by decide), if_neg (show ¬(4 = 1) by decide),
    if_neg (show ¬(4 = 2) by decide), if_neg (show ¬(4 = 3) by decide),
    if_pos trivial, if_pos trivial]

theorem parseBuiltin_header_bitfield (bytes : List Nat) (len : Nat)
    (hh : parseHeader bytes = some (len, some 5)) :
    parseBuiltin bytes =
      some ((BitFieldMessage.parse_bytes (bytes.drop HEADER_LEN) (wsub32 len 1)).map
        .BitField) := by
  simp only [parseBuiltin, hh, CHOKE_MESSAGE_ID, UNCHOKE_MESSAGE_ID, INTERESTED_MESSAGE_ID,
    UNINTERESTED_MESSAGE_ID, HAVE_MESSAGE_ID, BITFIELD_MESSAGE_ID]
  rw [if_neg (show ¬(5 = 0) by decide), if_neg (show ¬(5 = 1) by decide),
    if_neg (show ¬(5 = 2) by decide), if_neg (show ¬(5 = 3) by decide),
    if_neg (show ¬(5 = 4) by decide), if_pos trivial]

theorem parseBuiltin_header_request (bytes : List Nat)
    (hh : parseHeader bytes = some (13, some 6)) :
    parseBuiltin bytes =
      some ((RequestMessage.parse_bytes (bytes.drop HEADER_LEN)).map .Request) := by
  simp only [parseBuiltin, hh, CHOKE_MESSAGE_ID, UNCHOKE_MESSAGE_ID, INTERESTED_MESSAGE_ID,
    UNINTERESTED_MESSAGE_ID, HAVE_MESSAGE_ID, BITFIELD_MESSAGE_ID, REQUEST_MESSAGE_ID,
    REQUEST_MESSAGE_LEN]
  rw [if_neg (show ¬(6 = 0) by decide), if_neg (show ¬(6 = 1) by decide),
    if_neg (show ¬(6 = 2) by decide), if_neg (show ¬(6 = 3) by decide),
    if_neg (show ¬(6 = 4) by decide), if_neg (show ¬(6 = 5) by decide),
    if_pos trivial, if_pos trivial]

theorem parseBuiltin_header_piece (bytes : List Nat) (len : Nat)
    (hh : parseHeader bytes = some (len, some 7)) :
    parseBuiltin bytes =
      some ((PieceMessage.parse_bytes (bytes.drop HEADER_LEN) (wsub32 len 1)).map .Piece) := by
  simp only [parseBuiltin, hh, CHOKE_MESSAGE_ID, UNCHOKE_MESSAGE_ID, INTERESTED_MESSAGE_ID,
    UNINTERESTED_MESSAGE_ID, HAVE_MESSAGE_ID, BITFIELD_MESSAGE_ID, REQUEST_MESSAGE_ID,
    PIECE_MESSAGE_ID]
  rw [if_neg (show ¬(7 = 0) by decide), if_neg (show ¬(7 = 1) by decide),
    if_neg (show ¬(7 = 2) by decide), if_neg (show ¬(7 = 3) by decide),
    if_neg (show ¬(7 = 4) by decide), if_neg (show ¬(7 = 5) by decide),
    if_neg (show ¬(7 = 6) by decide), if_pos trivial]

theorem parseBuiltin_header_cancel (bytes : List Nat)
    (hh : parseHeader bytes = some (13, some 8)) :
    parseBuiltin bytes =
      some ((CancelMessage.parse_bytes (bytes.drop HEADER_LEN)).map .Cancel) := by
  simp only [parseBuiltin, hh, CHOKE_MESSAGE_ID, UNCHOKE_MESSAGE_ID, INTERESTED_MESSAGE_ID,
    UNINTERESTED_MESSAGE_ID, HAVE_MESSAGE_ID, BITFIELD_MESSAGE_ID, REQUEST_MESSAGE_ID,
    PIECE_MESSAGE_ID, CANCEL_MESSAGE_ID, CANCEL_MESSAGE_LEN]
  rw [if_neg (show ¬(8 = 0) by decide), if_neg (show ¬(8 = 1) by decide),
    if_neg (show ¬(8 = 2) by decide), if_neg (show ¬(8 = 3) by decide),
    if_neg (show ¬(8 = 4) by decide), if_neg (show ¬(8 = 5) by decide),
    if_neg (show ¬(8 = 6) by decide), if_neg (show ¬(8 = 7) by decide),
    if_pos trivial, if_pos trivial]

theorem parseBuiltin_header_unknown (bytes : List Nat) (len id : Nat)
    (hh : parseHeader bytes = some (len, some id)) (hid : 8 < id) :
    parseBuiltin bytes = none := by
  simp only [parseBuiltin, hh, CHOKE_MESSAGE_ID, UNCHOKE_MESSAGE_ID, INTERESTED_MESSAGE_ID,
    UNINTERESTED_MESSAGE_ID, HAVE_MESSAGE_ID, BITFIELD_MESSAGE_ID, REQUEST_MESSAGE_ID,
    PIECE_MESSAGE_ID, CANCEL_MESSAGE_ID]
  rw [if_neg (show ¬(id = 0) by omega), if_neg (show ¬(id = 1) by omega),
    if_neg (show ¬(id = 2) by omega), if_neg (show ¬(id = 3) by omega),
    if_neg (show ¬(id = 4) by omega), if_neg (show ¬(id = 5) by omega),
    if_neg (show ¬(id = 6) by omega), if_neg (show ¬(id = 7) by omega),
    if_neg (show ¬(id = 8) by omega)]

theorem bits_parse_not_port (b0 b1 b2 b3 id : Nat) (rest : List Nat)
    (hid : id ≠ PORT_MESSAGE_ID) :
    BitsExtensionMessage.parse_bytes (b0 :: b1 :: b2 :: b3 :: id :: rest) = none := by
  simp only [BitsExtensionMessage.parse_bytes]
  rw [if_neg]
  intro hand
  exact hid hand.2

theorem prot_parse_envelope (extended : Option ExtendedMessage) (extId : Nat)
    (payload : List Nat)
    (hlen : BASE_PROT_EXTENSION_MESSAGE_LEN + payload.length < 2 ^ 32) :
    PeerExtensionProtocolMessage.parse_bytes
      (u32Bytes (BASE_PROT_EXTENSION_MESSAGE_LEN + payload.length) ++
        [EXTENSION_PROTOCOL_MESSAGE_ID, extId] ++ payload) extended =
      (match extended with
      | some ctx =>
        if ctx.ut_metadata_id = some extId then
          (UtMetadataMessage.parsePayload payload).map .UtMetadata
        else .ok (.Unrecognized extId payload)
      | none => .ok (.Unrecognized extId payload)) := by
  have hbe := beU32_u32Bytes (BASE_PROT_EXTENSION_MESSAGE_LEN + payload.length) hlen
  simp only [u32Bytes, List.cons_append, List.nil_append,
    PeerExtensionProtocolMessage.parse_bytes]
  rw [if_pos ⟨hbe, trivial⟩]


/-- C2: round-trip — for every constructible message (`wf` records the range
constraints the Rust field types enforce) and every negotiation context
applicable to it, parsing the bytes produced by `write_bytes` with the same
context yields exactly the original message. -/
theorem decode_encode_roundtrip (m : PeerWireProtocolMessage)
    (extended : Option ExtendedMessage) (bs : List Nat) (hwf : m.wf)
    (happ : applicable extended m) (h : m.write_bytes extended = .ok bs) :
    PeerWireProtocolMessage.parse_bytes bs extended = .ok m := by
  cases m with
  | KeepAlive =>
    simp only [PeerWireProtocolMessage.write_bytes, Except.ok.injEq] at h
    subst h; rfl
  | Choke =>
    simp only [PeerWireProtocolMessage.write_bytes, Except.ok.injEq] at h
    subst h; rfl
  | UnChoke =>
    simp only [PeerWireProtocolMessage.write_bytes, Except.ok.injEq] at h
    subst h; rfl
  | Interested =>
    simp only [PeerWireProtocolMessage.write_bytes, Except.ok.injEq] at h
    subst h; rfl
  | UnInterested =>
    simp only [PeerWireProtocolMessage.write_bytes, Except.ok.injEq] at h
    subst h; rfl
  | Have msg =>
    simp only [PeerWireProtocolMessage.write_bytes, Except.ok.injEq] at h
    subst h
    have hpi : msg.piece_index < 2 ^ 32 := hwf
    have hh : parseHeader (HaveMessage.write_bytes msg) = some (5, some 4) := rfl
    rw [parse_bytes_builtin _ extended _ (parseBuiltin_header_have _ hh)]
    have hdrop : (HaveMessage.write_bytes msg).drop HEADER_LEN = u32Bytes msg.piece_index := rfl
    rw [hdrop, have_parse_u32Bytes msg.piece_index hpi]
    rfl
  | BitField msg =>
    simp only [PeerWireProtocolMessage.write_bytes, Except.ok.injEq] at h
    subst h
    obtain ⟨hbytes, hlen⟩ := hwf
    have hh : parseHeader (BitFieldMessage.write_bytes msg) =
        some (1 + msg.bitfield.length, some 5) :=
      parseHeader_u32Bytes (1 + msg.bitfield.length) hlen ([5] ++ msg.bitfield)
    rw [parse_bytes_builtin _ extended _ (parseBuiltin_header_bitfield _ _ hh)]
    have hdrop : (BitFieldMessage.write_bytes msg).drop HEADER_LEN = msg.bitfield := rfl
    rw [hdrop, wsub32_one_add _ hlen, bitfield_parse_exact]
    rfl
  | Request msg =>
    simp only [PeerWireProtocolMessage.write_bytes, Except.ok.injEq] at h
    subst h
    obtain ⟨hi, hb, hl⟩ := hwf
    have hh : parseHeader (RequestMessage.write_bytes msg) = some (13, some 6) := rfl
    rw [parse_bytes_builtin _ extended _ (parseBuiltin_header_request _ hh)]
    have hdrop : (RequestMessage.write_bytes msg).drop HEADER_LEN =
        u32Bytes msg.index ++ (u32Bytes msg.begin_ ++ u32Bytes msg.length) := rfl
    rw [hdrop, request_parse_u32Bytes msg.index msg.begin_ msg.length hi hb hl]
    rfl
  | Piece msg =>
    simp only [PeerWireProtocolMessage.write_bytes, Except.ok.injEq] at h
    subst h
    obtain ⟨hi, hb, hblk, hlen⟩ := hwf
    have hh : parseHeader (PieceMessage.write_bytes msg) =
        some (9 + msg.block.length, some 7) :=
      parseHeader_u32Bytes (9 + msg.block.length) hlen
        ([7] ++ (u32Bytes msg.index ++ (u32Bytes msg.begin_ ++ msg.block)))
    rw [parse_bytes_builtin _ extended _ (parseBuiltin_header_piece _ _ hh)]
    have hdrop : (PieceMessage.write_bytes msg).drop HEADER_LEN =
        u32Bytes msg.index ++ (u32Bytes msg.begin_ ++ msg.block) := rfl
    rw [hdrop, wsub32_nine_add _ hlen, piece_parse_u32Bytes msg.index msg.begin_ msg.block hi hb]
    rfl
  | Cancel msg =>
    simp only [PeerWireProtocolMessage.write_bytes, Except.ok.injEq] at h
    subst h
    obtain ⟨hi, hb, hl⟩ := hwf
    have hh : parseHeader (CancelMessage.write_bytes msg) = some (13, some 8) := rfl
    rw [parse_bytes_builtin _ extended _ (parseBuiltin_header_cancel _ hh)]
    have hdrop : (CancelMessage.write_bytes msg).drop HEADER_LEN =
        u32Bytes msg.index ++ (u32Bytes msg.begin_ ++ u32Bytes msg.length) := rfl
    rw [hdrop, cancel_parse_u32Bytes msg.index msg.begin_ msg.length hi hb hl]
    rfl
  | BitsExtension ext =>
    cases ext with
    | Port msg =>
      simp only [PeerWireProtocolMessage.write_bytes, BitsExtensionMessage.write_bytes,
        Except.ok.injEq] at h
      subst h
      have hp : msg.listen_port < 2 ^ 16 := hwf
      have hh : parseHeader (PortMessage.write_bytes msg) = some (3, some 9) := rfl
      have hnone : parseBuiltin (PortMessage.write_bytes msg) = none :=
        parseBuiltin_header_unknown _ 3 9 hh (by omega)
      have hbits : BitsExtensionMessage.parse_bytes (PortMessage.write_bytes msg) =
          some (.ok (.Port ⟨msg.listen_port / 2 ^ 8 % 256 * 256 + msg.listen_port % 256⟩)) :=
        rfl
      rw [parse_bytes_bits _ extended _ hnone hbits]
      have hp2 : msg.listen_port / 2 ^ 8 % 256 * 256 + msg.listen_port % 256 =
          msg.listen_port := by omega
      rw [hp2]
      rfl
  | ProtExtension ext =>
    cases ext with
    | UtMetadata msg =>
      obtain ⟨ctx, id, rfl, hid⟩ := happ
      simp only [PeerWireProtocolMessage.write_bytes, PeerExtensionProtocolMessage.write_bytes,
        hid, Except.ok.injEq] at h
      subst h
      have hlen : BASE_PROT_EXTENSION_MESSAGE_LEN + msg.encodePayload.length < 2 ^ 32 := hwf
      have hh : parseHeader (u32Bytes (BASE_PROT_EXTENSION_MESSAGE_LEN +
          msg.encodePayload.length) ++ [EXTENSION_PROTOCOL_MESSAGE_ID, id] ++
          msg.encodePayload) = some (BASE_PROT_EXTENSION_MESSAGE_LEN +
          msg.encodePayload.length, some 20) :=
        parseHeader_u32Bytes _ hlen ([EXTENSION_PROTOCOL_MESSAGE_ID, id] ++ msg.encodePayload)
      have hnone : parseBuiltin (u32Bytes (BASE_PROT_EXTENSION_MESSAGE_LEN +
          msg.encodePayload.length) ++ [EXTENSION_PROTOCOL_MESSAGE_ID, id] ++
          msg.encodePayload) = none :=
        parseBuiltin_header_unknown _ _ 20 hh (by omega)
      have hbits : BitsExtensionMessage.parse_bytes
          (u32Bytes (BASE_PROT_EXTENSION_MESSAGE_LEN + msg.encodePayload.length) ++
            [EXTENSION_PROTOCOL_MESSAGE_ID, id] ++ msg.encodePayload) = none :=
        bits_parse_not_port _ _ _ _ 20 (id :: msg.encodePayload) (by decide)
      rw [parse_bytes_prot _ _ hnone hbits,
        prot_parse_envelope (some ctx) id msg.encodePayload hlen]
      simp [hid, parsePayload_encodePayload, Except.map]
    | Unrecognized id payload =>
      simp only [PeerWireProtocolMessage.write_bytes, PeerExtensionProtocolMessage.write_bytes,
        Except.ok.injEq] at h
      subst h
      exact parse_unrecognized_envelope extended id payload hwf.2.2 happ

/-- Witness for C2 at the concrete message `Have {piece_index: 7}` encoded
and decoded under the absent negotiation context. -/
theorem decode_encode_roundtrip_witness :
    PeerWireProtocolMessage.parse_bytes [0, 0, 0, 5, 4, 0, 0, 0, 7] none =
      .ok (.Have ⟨7⟩) :=
  decode_encode_roundtrip (.Have ⟨7⟩) none [0, 0, 0, 5, 4, 0, 0, 0, 7]
    (show (7 : Nat) < 2 ^ 32 by norm_num) (by trivial) (by decide)

end BtProto
